import Mathlib

/-!
# Verification of the citation segmentation and field-extraction engine

Shallow embedding of `scripts/abstract_parser.py` (class `AbstractParser` and
dataclass `AbstractRecord`).  Text is modelled as `List Char` (`Str`), with
Python string operations and the concrete regular expressions of the source
hand-compiled to executable Lean functions.  The character classes `\s`, `\w`,
`\d` and the case folding of `re.IGNORECASE` are modelled at ASCII level.

Each regular expression of the source appears here as a dedicated function,
faithful to Python `re` backtracking semantics (leftmost match; greedy
quantifiers try longest first, lazy quantifiers shortest first); where a
pattern is deterministic this is noted at the definition.
-/

set_option maxRecDepth 20000

abbrev Str := List Char

/-- Shorthand: string literal to `Str`. -/
def sl (s : String) : Str := s.toList

/-- Python whitespace for `str.strip`/`str.split()` and the regex class `\s`
(ASCII: space, tab, newline, carriage return, vertical tab, form feed). -/
def pyWs (c : Char) : Bool :=
  c = ' ' || c = '\t' || c = '\n' || c = '\r' || c = Char.ofNat 11 || c = Char.ofNat 12

/-- Regex class `\w` (ASCII model): letters, digits, underscore. -/
def isWordChar (c : Char) : Bool := c.isAlphanum || c = '_'

/-- Regex class `\d` (ASCII model). -/
def isDigitC (c : Char) : Bool := c.isDigit

/-- Regex class `[A-Za-z]`. -/
def isLetterC (c : Char) : Bool := c.isAlpha

/-- Regex class `[A-Z]`. -/
def isUpperC (c : Char) : Bool := c.isUpper

/-- Python `str.strip()`: drop leading and trailing whitespace. -/
def pyStrip (s : Str) : Str :=
  ((s.dropWhile pyWs).reverse.dropWhile pyWs).reverse

/-- Python `str.rstrip('.')`. -/
def rstripDot (s : Str) : Str :=
  (s.reverse.dropWhile (· = '.')).reverse

/-- Python `str.split(sep)` for a non-empty separator: split on non-overlapping
occurrences, left to right.  (For `sep = []` the source's `str.split` is a
`ValueError`; this total model then keeps the current accumulator behaviour and
is never invoked that way by the parser, which always passes `"\n\n\n"` or
`"\n"`-like separators.)  `acc` is the current piece, reversed. -/
def pySplitGo (sep : Str) : Nat → Str → Str → List Str
  | _, acc, [] => [acc.reverse]
  | Nat.succ fuel, acc, c :: t =>
    if sep ≠ [] ∧ sep.isPrefixOf (c :: t) then
      acc.reverse :: pySplitGo sep fuel [] ((c :: t).drop sep.length)
    else
      pySplitGo sep fuel (c :: acc) t
  | 0, acc, s => [acc.reverse ++ s]

def pySplit (sep : Str) (s : Str) : List Str := pySplitGo sep s.length [] s

/-- Python `sep.join(pieces)` (used with `' '.join` and to state that splitting
is inverted by joining). -/
def joinSep (sep : Str) : List Str → Str
  | [] => []
  | [a] => a
  | a :: b :: rest => a ++ sep ++ joinSep sep (b :: rest)

/-- Python `str.split()` with no argument: whitespace-run split, no empties.
The fuel is the string length; each step consumes at least one character, so
the fuel never runs out. -/
def pyWordsGo : Nat → Str → List Str
  | _, [] => []
  | Nat.succ fuel, c :: t =>
    if pyWs c then pyWordsGo fuel t
    else (c :: t.takeWhile (fun x => !pyWs x)) ::
         pyWordsGo fuel (t.drop (t.takeWhile (fun x => !pyWs x)).length)
  | 0, _ => []

def pyWords (s : Str) : List Str := pyWordsGo s.length s

/-- Python `pat in s` (substring containment). -/
def containsSub (pat : Str) (s : Str) : Bool :=
  match s with
  | [] => pat.isEmpty
  | _ :: t => pat.isPrefixOf s || containsSub pat t

/-- Python `str.startswith` with a tuple of prefixes. -/
def startsWithAny (s : Str) (pats : List Str) : Bool :=
  pats.any (fun p => p.isPrefixOf s)

/-- Case-insensitive literal match at the front of `s`
(model of `re.IGNORECASE` literals, ASCII case folding). -/
def ciPrefix (p : Str) (s : Str) : Bool :=
  (s.take p.length).map Char.toLower == p.map Char.toLower

/-- Numeric value of a digit string (Python `int` on the regex captures,
which are always decimal digit runs). -/
def digitsVal (s : Str) : Nat :=
  s.foldl (fun a c => a * 10 + (c.toNat - 48)) 0

/-- Does `s` contain a run of four consecutive `\d` characters? -/
def has4DigitRun (s : Str) : Bool :=
  match s with
  | [] => false
  | c :: t =>
    (isDigitC c && (t.take 3).length = 3 && (t.take 3).all isDigitC) || has4DigitRun t

/-! ## Hand-compiled regular expressions of `AbstractParser.__init__` -/

/-- One step of `re.findall(r'\b((?:19|20)\d{2})\b', text)`: scan with the
previous character (for the word boundary `\b`); a match is `19` or `20`
followed by two digits, flanked by word boundaries; `findall` continues after
the match (non-overlapping). -/
def boundaryOk (prev : Option Char) : Bool :=
  match prev with | none => true | some p => !isWordChar p

def findYears (prev : Option Char) : Str → List Nat
  | [] => []
  | c :: d1 :: d2 :: d3 :: rest =>
    if boundaryOk prev &&
       ((c = '1' && d1 = '9') || (c = '2' && d1 = '0')) &&
       isDigitC d2 && isDigitC d3 &&
       (match rest with | [] => true | r :: _ => !isWordChar r) then
      digitsVal [c, d1, d2, d3] :: findYears (some d3) rest
    else findYears (some c) (d1 :: d2 :: d3 :: rest)
  | c :: t => findYears (some c) t

/-- `AbstractParser.extract_year`: first year found by the scan that lies in
the sanity range 1900..2030, else absent. -/
def extract_year (text : Str) : Option Nat :=
  (findYears none text).find? (fun y => 1900 ≤ y && y ≤ 2030)

/-- `re.search(r'^\d+\.\s*(.+?)\.\s*(\d{4})', first_line)` of
`extract_journal_info`: anchored at the start (the line holds no newline).
After the deterministic `\d+\.`, backtracking tries the greedy `\s*` longest
first (`w`), the lazy `(.+?)` shortest first (`g`), then `\.`, the greedy
`\s*` longest first (`w2`) and `(\d{4})`; the first combination in that order
wins.  Returns (group 1, numeric value of group 2). -/
def matchJournalStrict (line : Str) : Option (Str × Nat) :=
  let ds := line.takeWhile isDigitC
  if ds = [] then none else
  match line.drop ds.length with
  | '.' :: r =>
    ((List.range ((r.takeWhile pyWs).length + 1)).reverse).findSome? (fun w =>
      (List.range' 1 r.length).findSome? (fun g =>
        let mid := (r.drop w).take g
        if mid.length = g ∧ mid.all (· ≠ '\n') then
          match r.drop (w + g) with
          | '.' :: r2 =>
            ((List.range ((r2.takeWhile pyWs).length + 1)).reverse).findSome? (fun w2 =>
              let y4 := (r2.drop w2).take 4
              if y4.length = 4 ∧ y4.all isDigitC then some (mid, digitsVal y4)
              else none)
          | _ => none
        else none))
  | _ => none

/-- `re.search(label + r':\s*(cls+)', text, re.IGNORECASE)` for the
label-anchored identifier patterns (`doi:`/`DOI:`, `PMID:`): leftmost position
where the case-insensitive label, optional whitespace and a non-empty run of
class characters match.  Deterministic: the greedy `\s*`/`cls+` runs cannot be
usefully shortened because a shortened run ends in a character the next
pattern element rejects. -/
def searchLabelValue (label : Str) (cls : Char → Bool) (s : Str) : Option Str :=
  match s with
  | [] => none
  | _ :: t =>
    if ciPrefix label s then
      let v := ((s.drop label.length).dropWhile pyWs).takeWhile cls
      if v ≠ [] then some v else searchLabelValue label cls t
    else searchLabelValue label cls t

/-- `re.compile(r'PMCID:\s*(PMC\d+)', re.IGNORECASE).search`: like
`searchLabelValue` but the capture starts with a case-insensitive literal
`PMC`; the capture is the text as it appears (so lowercase `pmc` is kept). -/
def searchPmcid (s : Str) : Option Str :=
  match s with
  | [] => none
  | _ :: t =>
    if ciPrefix (sl ("PMCID:")) s then
      let a2 := (s.drop 6).dropWhile pyWs
      if ciPrefix (sl ("PMC")) a2 then
        let dgs := (a2.drop 3).takeWhile isDigitC
        if dgs ≠ [] then some (a2.take 3 ++ dgs) else searchPmcid t
      else searchPmcid t
    else searchPmcid t

/-- Class `[\d\./\-\w]` of the DOI patterns. -/
def doiClass (c : Char) : Bool :=
  isDigitC c || c = '.' || c = '/' || c = '-' || isWordChar c

/-- `re.search(r'[A-Za-z]+\s+[A-Z]+\(\d+\)', line)` tried at the front of `s`.
Deterministic: each greedy run is followed by a pattern element that rejects
the characters of the run, so only the maximal run can succeed. -/
def authorShapeAt (s : Str) : Bool :=
  let a := s.takeWhile isLetterC
  if a = [] then false else
  let s1 := s.drop a.length
  let w := s1.takeWhile pyWs
  if w = [] then false else
  let s2 := s1.drop w.length
  let u := s2.takeWhile isUpperC
  if u = [] then false else
  match s2.drop u.length with
  | '(' :: t2 =>
    let dgs := t2.takeWhile isDigitC
    dgs ≠ [] && (t2.drop dgs.length).head? = some ')'
  | _ => false

/-- `re.search` of the author-shape pattern anywhere in the line. -/
def hasAuthorShape (s : Str) : Bool :=
  match s with
  | [] => false
  | _ :: t => authorShapeAt s || hasAuthorShape t

/-- `re.match(r'^\d+\.\s+.*\d{4}', line)` on a (newline-free, stripped) line:
digits, a period, at least one whitespace character, then a run of four digits
anywhere in the remainder. -/
def matchNumDotWsYear (line : Str) : Bool :=
  let ds := line.takeWhile isDigitC
  ds ≠ [] &&
  (match line.drop ds.length with
   | '.' :: c :: r2 => pyWs c && has4DigitRun r2
   | _ => false)

/-- `re.match(r'^\([^)]*\)', line)`: an opening parenthesis with a later
closing parenthesis (the greedy `[^)]*` runs to the first `)`). -/
def matchParenStart (l : Str) : Bool :=
  l.head? = some '(' && (l.tail).any (· = ')')

/-- `re.search(r'\(\d+\)', line)`: a parenthesized digit run anywhere. -/
def hasParenNum (s : Str) : Bool :=
  match s with
  | [] => false
  | '(' :: t =>
    (let dgs := t.takeWhile isDigitC
     dgs ≠ [] && (t.drop dgs.length).head? = some ')') || hasParenNum t
  | _ :: t => hasParenNum t

/-- `re.sub(r'\(\d+\)', '', s)`: leftmost non-overlapping removal of
parenthesized digit runs.  The fuel is the string length; each step consumes
at least one character, so the fuel never runs out. -/
def subAffilGo : Nat → Str → Str
  | _, [] => []
  | Nat.succ fuel, '(' :: t =>
    (let dgs := t.takeWhile isDigitC
     if dgs ≠ [] ∧ (t.drop dgs.length).head? = some ')' then
       subAffilGo fuel (t.drop (dgs.length + 1))
     else '(' :: subAffilGo fuel t)
  | Nat.succ fuel, c :: t => c :: subAffilGo fuel t
  | 0, s => s

def subAffil (s : Str) : Str := subAffilGo s.length s

/-- A match of `re.compile(r'^\d+\.\s+.*?\d{4}', re.MULTILINE)` at the start
of `s` (a line-start position).  `\s+` may cross newlines; `.*?` and `\d{4}`
may not.  Backtracking tries the greedy `\s+` longest first (`k`) and the lazy
`.*?` shortest first (`g`).  Returns the match length minus one (the match is
never empty: it starts with a digit). -/
def citMatchExtra (s : Str) : Option Nat :=
  let ds := s.takeWhile isDigitC
  if ds = [] then none else
  match s.drop ds.length with
  | '.' :: r =>
    let W := (r.takeWhile pyWs).length
    ((List.range' 1 W).reverse).findSome? (fun k =>
      (List.range (r.length + 1)).findSome? (fun g =>
        let mid := (r.drop k).take g
        let y4 := (r.drop (k + g)).take 4
        if mid.length = g ∧ mid.all (· ≠ '\n') ∧ y4.length = 4 ∧ y4.all isDigitC then
          some (ds.length + k + g + 4)
        else none))
  | _ => none

/-- `len(citation_pattern.findall(raw_text))` for the multiline pattern above:
scan every position, carrying whether it is a line start (`^` in MULTILINE);
after a match, continue past it. -/
def countCitGo : Nat → Str → Bool → Nat
  | _, [], _ => 0
  | Nat.succ fuel, c :: t, atStart =>
    if atStart then
      match citMatchExtra (c :: t) with
      | some e => 1 + countCitGo fuel (t.drop e) false
      | none => countCitGo fuel t (c = '\n')
    else countCitGo fuel t (c = '\n')
  | 0, _, _ => 0

def countCitations (s : Str) : Nat := countCitGo s.length s true

/-- Lookahead `(?=\d+\.\s)` of the citation block splitter: digits, a period,
one whitespace character. -/
def lookaheadHead (s : Str) : Bool :=
  let ds := s.takeWhile isDigitC
  ds ≠ [] &&
  (match s.drop ds.length with
   | '.' :: c :: _ => pyWs c
   | _ => false)

/-- `re.split(r'\n(?=\d+\.\s)', raw_text)`: cut at every newline whose suffix
starts a numbered citation head; the newline is consumed.  `acc` is the
current piece, reversed. -/
def splitCitAux (acc : Str) : Str → List Str
  | [] => [acc.reverse]
  | c :: t =>
    if c = '\n' && lookaheadHead t then acc.reverse :: splitCitAux [] t
    else splitCitAux (c :: acc) t

def splitCitBlocks (s : Str) : List Str := splitCitAux [] s

/-! ## Line-level field extractors of `AbstractParser` -/

/-- `[line.strip() for line in text.split('\n') if line.strip()]`. -/
def cleanLines (text : Str) : List Str :=
  ((pySplit (sl ("\n")) text).map pyStrip).filter (· ≠ [])

/-- `lines[0] if lines else ""` over `text.strip().split('\n')`
(`extract_journal_info` preamble; the split of a string is never empty). -/
def firstLineOf (text : Str) : Str :=
  (pySplit (sl ("\n")) (pyStrip text)).headD []

/-- Inline DOI of the citation head:
`re.search(r'doi:\s*([\d\./\-\w]+)', first_line, re.IGNORECASE)` with
`.rstrip('.')` on the capture. -/
def inlineDoi (line : Str) : Option Str :=
  (searchLabelValue (sl ("doi:")) doiClass line).map rstripDot

/-- `AbstractParser.extract_journal_info`: strict head pattern first
(journal = group 1 stripped, year = `int(group 2)` with no range check,
DOI searched in the same line); on failure, the generic year scan of the
first line with journal and DOI absent. -/
def extract_journal_info (text : Str) : Option Str × Option Nat × Option Str :=
  let first_line := firstLineOf text
  match matchJournalStrict first_line with
  | some (j, y) => (some (pyStrip j), some y, inlineDoi first_line)
  | none => (none, extract_year first_line, none)

/-- Skip condition of the title walk: the first line, `Epub`/`doi:`/`DOI:`
prefixes, or a numbered citation line. -/
def titleSkip (i : Nat) (line : Str) : Bool :=
  i = 0 || startsWithAny line [sl ("Epub"), sl ("doi:"), sl ("DOI:")] ||
  matchNumDotWsYear line

/-- Collecting condition of the title walk: non-empty, not author-shaped, not
an identifier/`Author information:` line, longer than 5 characters. -/
def titleQualifies (line : Str) : Bool :=
  line ≠ [] && !hasAuthorShape line &&
  !startsWithAny line
    [sl ("Author information:"), sl ("DOI:"), sl ("PMID:"), sl ("PMCID:")] &&
  line.length > 5

/-- Lookahead of the title walk
(`for j in range(i+1, min(i+3, len(lines)))`): the first non-empty of the
next two lines decides; if it is author-shaped the title is returned. -/
def titleLookahead (rest : List Str) : Bool :=
  match rest with
  | [] => false
  | l1 :: rest2 =>
    if l1 ≠ [] then hasAuthorShape l1
    else match rest2 with
         | [] => false
         | l2 :: _ => if l2 ≠ [] then hasAuthorShape l2 else false

/-- The title accumulation loop of `extract_title` over the cleaned lines,
carrying the index `i`, the accumulated `title_lines` and the
`start_collecting` flag.  `break`/end-of-loop return the joined accumulator
when non-empty. -/
def titleWalk : List Str → Nat → List Str → Bool → Option Str
  | [], _, acc, _ => if acc ≠ [] then some (joinSep (sl (" ")) acc) else none
  | line :: rest, i, acc, sc =>
    if titleSkip i line then titleWalk rest (i + 1) acc sc
    else if titleQualifies line then
      if titleLookahead rest then some (joinSep (sl (" ")) (acc ++ [line]))
      else titleWalk rest (i + 1) (acc ++ [line]) true
    else if sc && hasAuthorShape line then
      if acc ≠ [] then some (joinSep (sl (" ")) acc) else none
    else if sc && (sl ("Author information:")).isPrefixOf line then
      if acc ≠ [] then some (joinSep (sl (" ")) acc) else none
    else titleWalk rest (i + 1) acc sc

/-- `AbstractParser.extract_title`. -/
def extract_title (text : Str) : Option Str :=
  titleWalk (cleanLines text) 0 [] false

/-- An author line: author-shaped and not the `Author information:` label. -/
def isAuthorLine (l : Str) : Bool :=
  hasAuthorShape l && !((sl ("Author information:")).isPrefixOf l)

/-- The author-line collection loop of `extract_authors`: find the first
author line; keep absorbing following author lines; a following line ending
in a period that contains a comma or one of the fixed name fragments is the
final continuation. -/
def findAuthorLines : List Str → List Str
  | [] => []
  | line :: rest =>
    if isAuthorLine line then
      line ::
        (match rest with
         | [] => []
         | nl :: _ =>
           if isAuthorLine nl then findAuthorLines rest
           else if nl.getLast? = some '.' &&
                   !((sl ("Author information:")).isPrefixOf nl) then
             if containsSub (sl (",")) nl || containsSub (sl ("FX")) nl ||
                containsSub (sl ("AH")) nl || containsSub (sl ("TM")) nl then
               [nl]
             else []
           else [])
    else findAuthorLines rest

/-- `AbstractParser.extract_authors`: join author lines, strip `(n)` markers,
split on commas, keep trimmed names with at least two words and no digit. -/
def extract_authors (text : Str) : List Str :=
  let author_lines := findAuthorLines (cleanLines text)
  if author_lines ≠ [] then
    let combined := joinSep (sl (" ")) author_lines
    let author_line := rstripDot (subAffil combined)
    let names := ((pySplit (sl (",")) author_line).map pyStrip).filter (· ≠ [])
    names.filter (fun n => (pyWords n).length ≥ 2 && !n.any (fun c => isDigitC c))
  else []

/-- Anchor of the abstract-body scan: the `Author information:` label or an
author-shaped line (as written in the source, the two disjuncts overlap). -/
def isAbstractAnchor (l : Str) : Bool :=
  (sl ("Author information:")).isPrefixOf l ||
  (hasAuthorShape l && !((sl ("Author information:")).isPrefixOf l))

/-- Qualifying body line after the anchor: longer than 50 characters, not an
identifier/label/parenthesis line, not a parenthesized run. -/
def bodyQualifies (l : Str) : Bool :=
  l.length > 50 &&
  !startsWithAny l
    [sl ("DOI:"), sl ("PMID:"), sl ("PMCID:"), sl ("Author information:"), sl ("(")] &&
  !matchParenStart l

/-- Qualifying body line of the fallback scan (from the third line): longer
than 50 characters, not an identifier line, no parenthesized digit run. -/
def fbQualifies (l : Str) : Bool :=
  l.length > 50 &&
  !startsWithAny l [sl ("DOI:"), sl ("PMID:"), sl ("PMCID:")] &&
  !hasParenNum l

/-- Scan for the first line satisfying `p`, returning its absolute index. -/
def scanFirst (p : Str → Bool) : List Str → Nat → Option Nat
  | [], _ => none
  | l :: rest, i => if p l then some i else scanFirst p rest (i + 1)

/-- First phase of `extract_abstract_text`: find the anchor line, then the
first qualifying body line after it (the outer loop breaks after the first
anchor whether or not a body line is found). -/
def findAbstractStartMain : List Str → Nat → Option Nat
  | [], _ => none
  | l :: rest, i =>
    if isAbstractAnchor l then scanFirst bodyQualifies rest (i + 1)
    else findAbstractStartMain rest (i + 1)

/-- `abstract_start` of `extract_abstract_text`: anchored scan, else the
fallback scan from index 2. -/
def findAbstractStart (lines : List Str) : Option Nat :=
  match findAbstractStartMain lines 0 with
  | some j => some j
  | none => scanFirst fbQualifies (lines.drop 2) 2

/-- `AbstractParser.extract_abstract_text`: join the lines from the start
index up to the first `DOI:`/`PMID:`/`PMCID:`/`Copyright` line, stripped. -/
def extract_abstract_text (text : Str) : Str :=
  let lines := cleanLines text
  match findAbstractStart lines with
  | none => []
  | some i =>
    let stop := fun l => startsWithAny l
      [sl ("DOI:"), sl ("PMID:"), sl ("PMCID:"), sl ("Copyright")]
    let aend := (scanFirst stop (lines.drop i) i).getD lines.length
    pyStrip (joinSep (sl (" ")) ((lines.drop i).take (aend - i)))

/-- `AbstractParser.extract_identifiers`: three independent label-anchored
case-insensitive searches over the whole block, trailing periods stripped. -/
def extract_identifiers (text : Str) : Option Str × Option Str × Option Str :=
  ((searchLabelValue (sl ("DOI:")) doiClass text).map rstripDot,
   (searchLabelValue (sl ("PMID:")) isDigitC text).map rstripDot,
   (searchPmcid text).map rstripDot)

/-! ## The record value type and the parsers -/

/-- Dataclass `AbstractRecord` of the source (optional text fields default to
absent; `year` values come from `\d{4}` captures, hence `Nat`). -/
structure AbstractRecord where
  title : Str
  authors : List Str
  year : Option Nat
  abstract_text : Str
  journal : Option Str := none
  doi : Option Str := none
  pmid : Option Str := none
  pmcid : Option Str := none
  raw_text : Option Str := none
deriving DecidableEq, Repr

/-- The shared single-block field extraction and validation: the bodies of
`parse_single_abstract` (lines 437-466) and of the single branch of
`parse_abstract` (lines 382-421) are textually identical in the source.
The labeled DOI is replaced by the head-line DOI only when falsy
(`if not doi`, i.e. absent or empty). -/
def parse_single_core (raw_text : Str) (include_raw : Bool) : Option AbstractRecord :=
  let jinfo := extract_journal_info raw_text
  let title := extract_title raw_text
  let authors := extract_authors raw_text
  let abstract_text := extract_abstract_text raw_text
  let ids := extract_identifiers raw_text
  let doi := if ids.1 = none ∨ ids.1 = some [] then jinfo.2.2 else ids.1
  match title with
  | none => none
  | some t =>
    if t = [] ∨ abstract_text = [] then none
    else some
      { title := t, authors := authors, year := jinfo.2.1,
        abstract_text := abstract_text, journal := jinfo.1, doi := doi,
        pmid := ids.2.1, pmcid := ids.2.2,
        raw_text := if include_raw then some raw_text else none }

/-- `AbstractParser.parse_single_abstract`: guard against blank input, then
the shared core (the source's `try/except` never fires: every stage is
total). -/
def parse_single_abstract (raw_text : Str) (include_raw : Bool) : Option AbstractRecord :=
  if raw_text = [] ∨ pyStrip raw_text = [] then none
  else parse_single_core raw_text include_raw

/-- Per-piece processing of the batch loop of `parse_multiple_abstracts`:
strip, skip blanks, parse the stripped piece. -/
def processPiece (include_raw : Bool) (piece : Str) : Option AbstractRecord :=
  let p := pyStrip piece
  if p = [] then none else parse_single_abstract p include_raw

/-- The block choice of `parse_multiple_abstracts`: citation-head splitting
when more than one numbered citation is found, else separator splitting. -/
def blocksOf (raw_text : Str) (separator : Str) : List Str :=
  if countCitations raw_text > 1 then splitCitBlocks raw_text
  else pySplit separator raw_text

/-- `AbstractParser.parse_multiple_abstracts`. -/
def parse_multiple_abstracts (raw_text : Str) (separator : Str)
    (include_raw : Bool) : List AbstractRecord :=
  if raw_text = [] ∨ pyStrip raw_text = [] then []
  else (blocksOf raw_text separator).filterMap (processPiece include_raw)

/-- The default separator of `parse_multiple_abstracts` (and the one
`parse_abstract` passes): a blank-line run of length three. -/
def defaultSep : Str := sl ("\n\n\n")

/-- `AbstractParser.parse_abstract`: blank guard; with more than one numbered
citation delegate to `parse_multiple_abstracts`, else parse the whole text as
a single block. -/
def parse_abstract (raw_text : Str) (include_raw : Bool) : List AbstractRecord :=
  if raw_text = [] ∨ pyStrip raw_text = [] then []
  else if countCitations raw_text > 1 then
    parse_multiple_abstracts raw_text defaultSep include_raw
  else (parse_single_core raw_text include_raw).toList

/-! ## The interchange representation (`to_dict`/`to_json` and the inverse
reconstruction `AbstractRecord(**d)` used by `ResearchGapStore.import_from_json`).
The JSON string layer itself is the Python standard library; the model works at
the level of the field-named value mapping it carries losslessly. -/

inductive JValue where
  | jnull : JValue
  | jstr : Str → JValue
  | jint : Nat → JValue
  | jarr : List JValue → JValue

def optStrJ : Option Str → JValue
  | none => JValue.jnull
  | some s => JValue.jstr s

def optNatJ : Option Nat → JValue
  | none => JValue.jnull
  | some n => JValue.jint n

/-- `AbstractRecord.to_dict` (`dataclasses.asdict`): the field-named
representation, one entry per dataclass field in declaration order. -/
def to_dict (r : AbstractRecord) : List (String × JValue) :=
  [("title", JValue.jstr r.title),
   ("authors", JValue.jarr (r.authors.map JValue.jstr)),
   ("year", optNatJ r.year),
   ("abstract_text", JValue.jstr r.abstract_text),
   ("journal", optStrJ r.journal),
   ("doi", optStrJ r.doi),
   ("pmid", optStrJ r.pmid),
   ("pmcid", optStrJ r.pmcid),
   ("raw_text", optStrJ r.raw_text)]

def jLookup (k : String) (d : List (String × JValue)) : Option JValue :=
  (d.find? (fun kv => kv.1 == k)).map (fun kv => kv.2)

def jAsStr : JValue → Option Str
  | JValue.jstr s => some s
  | _ => none

def jAsOptStr : JValue → Option (Option Str)
  | JValue.jnull => some none
  | JValue.jstr s => some (some s)
  | _ => none

def jAsOptNat : JValue → Option (Option Nat)
  | JValue.jnull => some none
  | JValue.jint n => some (some n)
  | _ => none

def strListM : List JValue → Option (List Str)
  | [] => some []
  | v :: vs =>
    match jAsStr v, strListM vs with
    | some s, some ss => some (s :: ss)
    | _, _ => none

def jAsStrList : JValue → Option (List Str)
  | JValue.jarr xs => strListM xs
  | _ => none

/-- Reconstruction of a record from its field-named representation
(`AbstractRecord(**abstract_dict)` in `import_from_json`): look up every
field by name and decode it at the field's type. -/
def record_from_dict (d : List (String × JValue)) : Option AbstractRecord := do
  let t ← jLookup "title" d >>= jAsStr
  let au ← jLookup "authors" d >>= jAsStrList
  let y ← jLookup "year" d >>= jAsOptNat
  let ab ← jLookup "abstract_text" d >>= jAsStr
  let j ← jLookup "journal" d >>= jAsOptStr
  let dd ← jLookup "doi" d >>= jAsOptStr
  let pm ← jLookup "pmid" d >>= jAsOptStr
  let pc ← jLookup "pmcid" d >>= jAsOptStr
  let rt ← jLookup "raw_text" d >>= jAsOptStr
  some { title := t, authors := au, year := y, abstract_text := ab,
         journal := j, doi := dd, pmid := pm, pmcid := pc, raw_text := rt }

/-! ## Concrete inputs used by the claims -/

/-- The concrete scenario input of spec section 8.6 (the module docstring
sample of the source, with the abstract truncated as in the spec). -/
def sample86 : Str := sl
  ("1. Future Healthc J. 2019 Jun;6(2):94-98. doi: 10.7861/futurehosp.6-2-94.\n\nThe potential for artificial intelligence in healthcare.\n\nDavenport T(1), Kalakota R(2).\n\nAuthor information:\n(1)Babson College, Wellesley, USA.\n(2)Deloitte Consulting, New York, USA.\n\nThe complexity and rise of data in healthcare means that artificial intelligence\n(AI) will increasingly be applied within the field...\n\nDOI: 10.7861/futurehosp.6-2-94\nPMCID: PMC6616181\nPMID: 31363513")

/-- A second well-formed block in the shape of section 8.6, with a different
title and year. -/
def sampleSecond : Str := sl
  ("2. Second Journal. 2020 Mar;7(1):1-5. doi: 10.9999/second.1-1.\n\nA different title about machine learning in medicine.\n\nSmith J(1), Jones K(2).\n\nAuthor information:\n(1)Somewhere University, Boston, USA.\n(2)Another Institute, Paris, France.\n\nThis second abstract paragraph is also longer than fifty characters to qualify as body text.\n\nDOI: 10.9999/second.1-1\nPMID: 12345678")

/-- Two well-formed blocks separated by a blank-line run (spec property 8.7). -/
def twoBlocks : Str := sample86 ++ sl ("\n\n\n") ++ sampleSecond

/-- A block whose citation head carries the out-of-range year 1850. -/
def sample1850 : Str := sl
  ("1. Some Journal. 1850 xyz.\n\nA valid title sentence here.\n\nDavenport T(1), Kalakota R(2).\n\nThis abstract sentence is definitely longer than fifty characters in total length.")

/-- A block with an inline head DOI and a later, different `DOI:` line. -/
def sampleTwoDois : Str := sl
  ("1. Some Journal. 2019 doi: 10.1111/aaa.\n\nA valid title sentence here.\n\nDavenport T(1), Kalakota R(2).\n\nThis abstract sentence is definitely longer than fifty characters in total length.\n\nDOI: 10.2222/bbb")

/-- Placeholder record (only used as a `getD`/`headD` default below). -/
def dummyRecord : AbstractRecord :=
  { title := [], authors := [], year := none, abstract_text := [] }

/-- The record the engine produces for the section 8.6 sample. -/
def sample86Record : AbstractRecord :=
  (parse_abstract sample86 false).headD dummyRecord

/-- The record the engine produces for the two-DOI block. -/
def twoDoisRecord : AbstractRecord :=
  (parse_single_abstract sampleTwoDois false).getD dummyRecord

/-! ## Helper lemmas on the string primitives -/

theorem dropWhile_head_false (p : Char → Bool) (l : Str) (c : Char) (t : Str)
    (h : l.dropWhile p = c :: t) : p c = false := by
  induction l with
  | nil => simp at h
  | cons a l ih =>
    by_cases hp : p a
    · rw [List.dropWhile_cons, if_pos hp] at h
      exact ih h
    · rw [List.dropWhile_cons, if_neg hp] at h
      cases h
      simpa using hp

theorem dropWhile_getLast? (p : Char → Bool) (l : Str)
    (h : l.dropWhile p ≠ []) : (l.dropWhile p).getLast? = l.getLast? := by
  induction l with
  | nil => simp at h
  | cons a l ih =>
    rw [List.dropWhile_cons]
    by_cases hp : p a
    · rw [List.dropWhile_cons, if_pos hp] at h
      rw [if_pos hp, ih h, List.getLast?_cons]
      have : l ≠ [] := by
        intro hl; exact h (by simp [hl])
      cases l with
      | nil => simp at this
      | cons b m => simp [List.getLast?_cons]
    · simp [hp]

theorem all_of_dropWhile_all (p : Char → Bool) (l : Str)
    (h : (l.dropWhile p).all p = true) : l.all p = true := by
  induction l with
  | nil => simp
  | cons a l ih =>
    rw [List.dropWhile_cons] at h
    by_cases hp : p a
    · rw [if_pos hp] at h
      simp [hp, ih h]
    · rw [if_neg hp] at h
      simpa using h

/-- A blank strip result means the whole string is whitespace. -/
theorem pyStrip_nil_all (s : Str) (h : pyStrip s = []) : s.all pyWs = true := by
  unfold pyStrip at h
  have h1 : (s.dropWhile pyWs).reverse.dropWhile pyWs = [] := by
    have := congrArg List.reverse h
    simpa using this
  have h2 : ((s.dropWhile pyWs).reverse).all pyWs = true := by
    rw [List.dropWhile_eq_nil_iff] at h1
    rw [List.all_eq_true]
    intro x hx
    exact h1 x hx
  rw [List.all_reverse] at h2
  exact all_of_dropWhile_all pyWs s h2

/-- A non-blank string strips to something. -/
theorem pyStrip_ne_nil_of_any (s : Str)
    (h : s.any (fun c => !pyWs c) = true) : pyStrip s ≠ [] := by
  intro hs
  have := pyStrip_nil_all s hs
  rw [List.all_eq_true] at this
  rw [List.any_eq_true] at h
  obtain ⟨c, hc, hv⟩ := h
  have := this c hc
  simp [this] at hv

/-- The first character of a stripped string is not whitespace. -/
theorem pyStrip_head_false (s : Str) (c : Char) (t : Str)
    (h : pyStrip s = c :: t) : pyWs c = false := by
  unfold pyStrip at h
  have h1 : (s.dropWhile pyWs).reverse.dropWhile pyWs = (c :: t).reverse := by
    have := congrArg List.reverse h
    simpa using this
  have hne : (s.dropWhile pyWs).reverse.dropWhile pyWs ≠ [] := by
    rw [h1]; simp
  have hlast := dropWhile_getLast? pyWs (s.dropWhile pyWs).reverse hne
  rw [h1, List.getLast?_reverse, List.getLast?_reverse] at hlast
  have hhd : (s.dropWhile pyWs).head? = some c := by
    simpa using hlast.symm
  cases hd : s.dropWhile pyWs with
  | nil => rw [hd] at hhd; simp at hhd
  | cons a m =>
    rw [hd] at hhd
    simp at hhd
    exact hhd ▸ dropWhile_head_false pyWs s a m hd

/-- A non-blank strip result contains a non-whitespace character. -/
theorem pyStrip_any (s : Str) (h : pyStrip s ≠ []) :
    (pyStrip s).any (fun c => !pyWs c) = true := by
  cases hs : pyStrip s with
  | nil => exact absurd hs h
  | cons c t =>
    have := pyStrip_head_false s c t hs
    simp [this]

/-- Joining non-blank pieces keeps a non-whitespace character. -/
theorem joinSep_any (sep : Str) (q : Char → Bool) :
    ∀ (acc : List Str), acc ≠ [] → (∀ l ∈ acc, l.any q = true) →
    (joinSep sep acc).any q = true
  | [], hne, _ => absurd rfl hne
  | [a], _, hq => by
      simpa [joinSep] using hq a (by simp)
  | a :: b :: rest, _, hq => by
      have ha := hq a (by simp)
      simp [joinSep, List.any_append, ha]

/-- Every cleaned line contains a non-whitespace character. -/
theorem cleanLines_any (text : Str) :
    ∀ l ∈ cleanLines text, l.any (fun c => !pyWs c) = true := by
  intro l hl
  unfold cleanLines at hl
  rw [List.mem_filter] at hl
  obtain ⟨hmem, hne⟩ := hl
  rw [List.mem_map] at hmem
  obtain ⟨x, _, hx⟩ := hmem
  subst hx
  exact pyStrip_any x (by simpa using hne)

/-- Any title produced by the accumulation walk over lines that all hold a
non-whitespace character itself holds a non-whitespace character. -/
theorem titleWalk_any :
    ∀ (ls : List Str) (i : Nat) (acc : List Str) (sc : Bool) (t : Str),
    (∀ l ∈ ls, l.any (fun c => !pyWs c) = true) →
    (∀ l ∈ acc, l.any (fun c => !pyWs c) = true) →
    titleWalk ls i acc sc = some t → t.any (fun c => !pyWs c) = true := by
  intro ls
  induction ls with
  | nil =>
    intro i acc sc t _ hacc h
    unfold titleWalk at h
    split at h
    · cases h
      exact joinSep_any _ _ acc (by assumption) hacc
    · cases h
  | cons line rest ih =>
    intro i acc sc t hls hacc h
    have hline : line.any (fun c => !pyWs c) = true := hls line (by simp)
    have hrest : ∀ l ∈ rest, l.any (fun c => !pyWs c) = true :=
      fun l hl => hls l (by simp [hl])
    unfold titleWalk at h
    split at h
    · exact ih (i + 1) acc sc t hrest hacc h
    · split at h
      · split at h
        · cases h
          refine joinSep_any _ _ (acc ++ [line]) (by simp) ?_
          intro l hl
          rcases List.mem_append.1 hl with hl | hl
          · exact hacc l hl
          · simp at hl; subst hl; exact hline
        · refine ih (i + 1) (acc ++ [line]) true t hrest ?_ h
          intro l hl
          rcases List.mem_append.1 hl with hl | hl
          · exact hacc l hl
          · simp at hl; subst hl; exact hline
      · split at h
        · split at h
          · cases h
            exact joinSep_any _ _ acc (by assumption) hacc
          · cases h
        · split at h
          · split at h
            · cases h
              exact joinSep_any _ _ acc (by assumption) hacc
            · cases h
          · exact ih (i + 1) acc sc t hrest hacc h

/-- An extracted title contains a non-whitespace character. -/
theorem extract_title_any (text : Str) (t : Str)
    (h : extract_title text = some t) : t.any (fun c => !pyWs c) = true :=
  titleWalk_any (cleanLines text) 0 [] false t (cleanLines_any text)
    (by intro l hl; simp at hl) h

/-- A non-empty extracted abstract body contains a non-whitespace character
(the body is produced by `pyStrip`). -/
theorem extract_abstract_text_any (text : Str)
    (h : extract_abstract_text text ≠ []) :
    (extract_abstract_text text).any (fun c => !pyWs c) = true := by
  simp only [extract_abstract_text] at h ⊢
  cases hfs : findAbstractStart (cleanLines text) with
  | none => rw [hfs] at h; exact absurd rfl h
  | some i => rw [hfs] at h; exact pyStrip_any _ h

/-- The Record Assembler: how each field of an accepted record is produced
from the extraction stages, together with the acceptance conditions. -/
theorem parse_single_core_fields (raw : Str) (incl : Bool) (r : AbstractRecord)
    (h : parse_single_core raw incl = some r) :
    extract_title raw = some r.title ∧ r.title ≠ [] ∧
    r.authors = extract_authors raw ∧
    r.year = (extract_journal_info raw).2.1 ∧
    r.abstract_text = extract_abstract_text raw ∧ r.abstract_text ≠ [] ∧
    r.journal = (extract_journal_info raw).1 ∧
    r.doi = (if (extract_identifiers raw).1 = none ∨ (extract_identifiers raw).1 = some []
             then (extract_journal_info raw).2.2 else (extract_identifiers raw).1) ∧
    r.pmid = (extract_identifiers raw).2.1 ∧
    r.pmcid = (extract_identifiers raw).2.2 := by
  simp only [parse_single_core] at h
  split at h
  · cases h
  · rename_i t heq
    split at h
    · cases h
    · rename_i hcond
      rw [not_or] at hcond
      cases h
      exact ⟨heq, hcond.1, rfl, rfl, rfl, hcond.2, rfl, rfl, rfl, rfl⟩

/-- Every record accepted by the core is valid: title and body are non-empty
even after trimming. -/
theorem parse_single_core_valid (raw : Str) (incl : Bool) (r : AbstractRecord)
    (h : parse_single_core raw incl = some r) :
    pyStrip r.title ≠ [] ∧ pyStrip r.abstract_text ≠ [] := by
  obtain ⟨ht, _, _, _, hab, habne, _⟩ := parse_single_core_fields raw incl r h
  constructor
  · exact pyStrip_ne_nil_of_any r.title (extract_title_any raw r.title ht)
  · refine pyStrip_ne_nil_of_any r.abstract_text ?_
    rw [hab] at habne ⊢
    exact extract_abstract_text_any raw habne

/-- Lifting core validity through `parse_single_abstract`. -/
theorem parse_single_abstract_valid (raw : Str) (incl : Bool) (r : AbstractRecord)
    (h : parse_single_abstract raw incl = some r) :
    pyStrip r.title ≠ [] ∧ pyStrip r.abstract_text ≠ [] := by
  unfold parse_single_abstract at h
  split at h
  · cases h
  · exact parse_single_core_valid raw incl r h

/-- Lifting core validity through the batch loop's per-piece processing. -/
theorem processPiece_valid (incl : Bool) (p : Str) (r : AbstractRecord)
    (h : processPiece incl p = some r) :
    pyStrip r.title ≠ [] ∧ pyStrip r.abstract_text ≠ [] := by
  simp only [processPiece] at h
  split at h
  · cases h
  · exact parse_single_abstract_valid _ incl r h

theorem parse_multiple_valid (raw sep : Str) (incl : Bool) (r : AbstractRecord)
    (h : r ∈ parse_multiple_abstracts raw sep incl) :
    pyStrip r.title ≠ [] ∧ pyStrip r.abstract_text ≠ [] := by
  unfold parse_multiple_abstracts at h
  split at h
  · cases h
  · rw [List.mem_filterMap] at h
    obtain ⟨p, _, hp⟩ := h
    exact processPiece_valid incl p r hp

/-- A boolean prefix gives back the list by appending the dropped suffix. -/
theorem prefix_append_drop (p l : Str) (h : p.isPrefixOf l = true) :
    p ++ l.drop p.length = l := by
  rw [List.isPrefixOf_iff_prefix] at h
  obtain ⟨u, rfl⟩ := h
  rw [List.drop_left]

/-- The separator split is non-empty and is inverted by joining with the
separator (Python `sep.join(s.split(sep)) == s`), for every fuel value. -/
theorem pySplitGo_join (sep : Str) :
    ∀ (fuel : Nat) (s acc : Str),
    pySplitGo sep fuel acc s ≠ [] ∧
    joinSep sep (pySplitGo sep fuel acc s) = acc.reverse ++ s := by
  intro fuel
  induction fuel with
  | zero =>
    intro s acc
    cases s with
    | nil => rw [pySplitGo]; simp [joinSep]
    | cons c t => rw [pySplitGo] <;> simp [joinSep]
  | succ n ih =>
    intro s acc
    cases s with
    | nil => rw [pySplitGo]; simp [joinSep]
    | cons c t =>
      rw [pySplitGo]
      split
      · rename_i hpre
        obtain ⟨hne, hj⟩ := ih ((c :: t).drop sep.length) []
        refine ⟨by simp, ?_⟩
        cases hP : pySplitGo sep n [] ((c :: t).drop sep.length) with
        | nil => exact absurd hP hne
        | cons p0 P =>
          rw [hP] at hj
          simp only [List.reverse_nil, List.nil_append] at hj
          show acc.reverse ++ sep ++ joinSep sep (p0 :: P) = acc.reverse ++ (c :: t)
          rw [hj, List.append_assoc, prefix_append_drop sep (c :: t) hpre.2]
      · obtain ⟨hne, hj⟩ := ih t (c :: acc)
        refine ⟨hne, ?_⟩
        rw [hj]
        simp

theorem pySplit_ne_nil (sep s : Str) : pySplit sep s ≠ [] :=
  (pySplitGo_join sep s.length s []).1

theorem pySplit_join (sep s : Str) : joinSep sep (pySplit sep s) = s := by
  have := (pySplitGo_join sep s.length s []).2
  simpa [pySplit] using this

theorem splitCitAux_ne_nil : ∀ (s acc : Str), splitCitAux acc s ≠ []
  | [], acc => by rw [splitCitAux]; simp
  | c :: t, acc => by
      rw [splitCitAux]
      split
      · simp
      · exact splitCitAux_ne_nil t (c :: acc)

/-- The citation-head split is inverted by joining with a newline. -/
theorem splitCitAux_join : ∀ (s acc : Str),
    joinSep (sl ("\n")) (splitCitAux acc s) = acc.reverse ++ s
  | [], acc => by rw [splitCitAux]; simp [joinSep]
  | c :: t, acc => by
      rw [splitCitAux]
      split
      · rename_i hcut
        rw [Bool.and_eq_true] at hcut
        have hc : c = '\n' := by simpa using hcut.1
        have hj := splitCitAux_join t []
        cases hP : splitCitAux [] t with
        | nil => exact absurd hP (splitCitAux_ne_nil t [])
        | cons p0 P =>
          rw [hP] at hj
          simp only [List.reverse_nil, List.nil_append] at hj
          show acc.reverse ++ sl ("\n") ++ joinSep (sl ("\n")) (p0 :: P) =
            acc.reverse ++ (c :: t)
          rw [hj, List.append_assoc, hc]
          rfl
      · have hj := splitCitAux_join t (c :: acc)
        rw [hj]
        simp

theorem splitCitBlocks_join (s : Str) :
    joinSep (sl ("\n")) (splitCitBlocks s) = s := by
  have := splitCitAux_join s []
  simpa [splitCitBlocks] using this

/-- Every block after the first in the citation-head split starts a numbered
citation head: the text remaining from that block on satisfies the split
lookahead. -/
theorem splitCitAux_tailHead : ∀ (s acc : Str) (k : Nat),
    k + 1 < (splitCitAux acc s).length →
    lookaheadHead (joinSep (sl ("\n")) ((splitCitAux acc s).drop (k + 1))) = true
  | [], acc, k => by rw [splitCitAux]; simp
  | c :: t, acc, k => by
      rw [splitCitAux]
      split
      · rename_i hcut
        rw [Bool.and_eq_true] at hcut
        intro hk
        simp only [List.length_cons] at hk
        cases k with
        | zero =>
          simp only [List.drop_succ_cons, List.drop_zero]
          have hj := splitCitAux_join t []
          simp only [List.reverse_nil, List.nil_append] at hj
          rw [hj]
          exact hcut.2
        | succ k' =>
          simp only [List.drop_succ_cons]
          exact splitCitAux_tailHead t [] k' (by omega)
      · intro hk
        exact splitCitAux_tailHead t (c :: acc) k hk

/-- `find?` membership: the fallback year scan only reports years in range. -/
theorem extract_year_range (t : Str) (y : Nat) (h : extract_year t = some y) :
    1900 ≤ y ∧ y ≤ 2030 := by
  unfold extract_year at h
  have := List.find?_some h
  simpa using this

/-- A record year is either in the sanity range or came from the strict
citation-head match (which performs no range check). -/
theorem journal_year_range (text : Str) (y : Nat)
    (h : (extract_journal_info text).2.1 = some y) :
    (1900 ≤ y ∧ y ≤ 2030) ∨ (matchJournalStrict (firstLineOf text)).isSome := by
  simp only [extract_journal_info] at h
  cases hm : matchJournalStrict (firstLineOf text) with
  | some p => exact Or.inr (by simp [hm])
  | none =>
    rw [hm] at h
    exact Or.inl (extract_year_range _ _ h)

theorem takeWhile_all (p : Char → Bool) (l : Str) : (l.takeWhile p).all p = true := by
  rw [List.all_eq_true]
  intro x hx
  exact List.mem_takeWhile_imp hx

/-- Shape of a label-anchored capture: non-empty, all class characters. -/
theorem searchLabelValue_shape (label : Str) (cls : Char → Bool) :
    ∀ (s v : Str), searchLabelValue label cls s = some v →
    v ≠ [] ∧ v.all cls = true := by
  intro s
  induction s with
  | nil => intro v h; simp [searchLabelValue] at h
  | cons c t ih =>
    intro v h
    simp only [searchLabelValue] at h
    split at h
    · split at h
      · rename_i hne
        cases h
        exact ⟨hne, takeWhile_all _ _⟩
      · exact ih v h
    · exact ih v h

theorem take_drop_append_shape (x d : Str) (hx : x.length = 3) :
    (x ++ d).take 3 = x ∧ (x ++ d).drop 3 = d := by
  constructor
  · rw [← hx, List.take_left]
  · rw [← hx, List.drop_left]

/-- Shape of the PMCID capture: three characters case-folding to `pmc`
followed by a non-empty digit run. -/
theorem searchPmcid_shape : ∀ (s v : Str), searchPmcid s = some v →
    (v.take 3).map Char.toLower = sl ("pmc") ∧
    v.drop 3 ≠ [] ∧ (v.drop 3).all isDigitC = true := by
  intro s
  induction s with
  | nil => intro v h; simp [searchPmcid] at h
  | cons c t ih =>
    intro v h
    simp only [searchPmcid] at h
    split at h
    · split at h
      · rename_i hpm
        split at h
        · rename_i hdgs
          cases h
          unfold ciPrefix at hpm
          rw [beq_iff_eq] at hpm
          have e1 : (sl ("PMC")).length = 3 := rfl
          have e2 : (sl ("PMC")).map Char.toLower = sl ("pmc") := rfl
          rw [e1, e2] at hpm
          have hlen : ((((c :: t).drop 6).dropWhile pyWs).take 3).length = 3 := by
            have hl := congrArg List.length hpm
            rw [List.length_map] at hl
            exact hl.trans rfl
          have hsplit := take_drop_append_shape _
            (((((c :: t).drop 6).dropWhile pyWs).drop 3).takeWhile isDigitC) hlen
          refine ⟨?_, ?_, ?_⟩
          · rw [hsplit.1]; exact hpm
          · rw [hsplit.2]; exact hdgs
          · rw [hsplit.2]; exact takeWhile_all _ _
        · exact ih v h
      · exact ih v h
    · exact ih v h

/-- `rstrip('.')` keeps a string with no period characters (in particular the
digit-only and `PMC`-digit captures). -/
theorem rstripDot_eq_self (s : Str) (h : ∀ c ∈ s, c ≠ '.') : rstripDot s = s := by
  unfold rstripDot
  cases hr : s.reverse with
  | nil =>
    have hs : s = [] := by simpa using congrArg List.reverse hr
    simp [hs]
  | cons a m =>
    have ha : a ∈ s := by
      rw [← List.mem_reverse, hr]
      simp
    rw [List.dropWhile_cons, if_neg (by simpa using h a ha), ← hr,
        List.reverse_reverse]

theorem digit_ne_dot (c : Char) (h : isDigitC c = true) : c ≠ '.' := by
  intro hc
  subst hc
  simp [isDigitC, Char.isDigit] at h

/-- `filterMap` over blocks that all parse relates blocks to records
one-to-one and in order. -/
theorem filterMap_forall2 {α β : Type} (f : α → Option β) :
    ∀ (l : List α), (∀ a ∈ l, (f a).isSome = true) →
    List.Forall₂ (fun a b => f a = some b) l (l.filterMap f)
  | [], _ => by simp
  | a :: l, hall => by
      have ha := hall a (by simp)
      cases hfa : f a with
      | none => rw [hfa] at ha; simp at ha
      | some b =>
        have hcons : List.filterMap f (a :: l) = b :: List.filterMap f l := by
          simp [List.filterMap_cons, hfa]
        rw [hcons]
        exact List.Forall₂.cons hfa
          (filterMap_forall2 f l (fun x hx => hall x (by simp [hx])))

/-- Removing a block whose parse fails leaves the records of the sibling
blocks unchanged. -/
theorem filterMap_drop_none {α β : Type} (f : α → Option β)
    (l1 l2 : List α) (b : α) (hb : f b = none) :
    (l1 ++ b :: l2).filterMap f = (l1 ++ l2).filterMap f := by
  simp [List.filterMap_append, List.filterMap_cons, hb]

/-! ## Round-trip helpers for the interchange representation -/

theorem jAsOptStr_optStrJ (o : Option Str) : jAsOptStr (optStrJ o) = some o := by
  cases o <;> rfl

theorem jAsOptNat_optNatJ (o : Option Nat) : jAsOptNat (optNatJ o) = some o := by
  cases o <;> rfl

theorem strListM_jstr (l : List Str) : strListM (l.map JValue.jstr) = some l := by
  induction l with
  | nil => rfl
  | cons a t ih => simp [strListM, jAsStr, ih]

theorem digits_rstrip (v : Str) (h : v.all isDigitC = true) : rstripDot v = v := by
  apply rstripDot_eq_self
  intro c hc
  rw [List.all_eq_true] at h
  exact digit_ne_dot c (h c hc)

theorem pmc_shape_rstrip (v : Str)
    (h1 : (v.take 3).map Char.toLower = sl ("pmc"))
    (h3 : (v.drop 3).all isDigitC = true) : rstripDot v = v := by
  apply rstripDot_eq_self
  intro c hc
  rw [← List.take_append_drop 3 v, List.mem_append] at hc
  rcases hc with hc | hc
  · intro hdot
    subst hdot
    have hmem : Char.toLower '.' ∈ sl ("pmc") :=
      h1 ▸ List.mem_map_of_mem Char.toLower hc
    exact absurd hmem (by decide)
  · rw [List.all_eq_true] at h3
    exact digit_ne_dot c (h3 c hc)

/-- Shape of the `pmid` output of the identifier extractor: a non-empty
decimal digit run. -/
theorem extract_pmid_shape (text p : Str)
    (h : (extract_identifiers text).2.1 = some p) :
    p ≠ [] ∧ p.all isDigitC = true := by
  simp only [extract_identifiers] at h
  cases hv : searchLabelValue (sl ("PMID:")) isDigitC text with
  | none => rw [hv] at h; cases h
  | some v =>
    rw [hv] at h
    simp only [Option.map_some'] at h
    obtain ⟨hne, hall⟩ := searchLabelValue_shape _ _ text v hv
    cases h
    rw [digits_rstrip v hall]
    exact ⟨hne, hall⟩

/-- Shape of the `pmcid` output of the identifier extractor: three characters
case-folding to `pmc` followed by a non-empty digit run. -/
theorem extract_pmcid_shape (text q : Str)
    (h : (extract_identifiers text).2.2 = some q) :
    (q.take 3).map Char.toLower = sl ("pmc") ∧
    q.drop 3 ≠ [] ∧ (q.drop 3).all isDigitC = true := by
  simp only [extract_identifiers] at h
  cases hv : searchPmcid text with
  | none => rw [hv] at h; cases h
  | some v =>
    rw [hv] at h
    simp only [Option.map_some'] at h
    obtain ⟨h1, h2, h3⟩ := searchPmcid_shape text v hv
    cases h
    rw [pmc_shape_rstrip v h1 h3]
    exact ⟨h1, h2, h3⟩

/-! ## The claims -/

/-- Claim C1: for every input text, every separator and every value of the
include-raw flag, every `AbstractRecord` returned by `parse_abstract` and by
`parse_multiple_abstracts` has a non-empty `title` and a non-empty
`abstract_text` after trimming. -/
theorem C1_validity_invariant (raw sep : Str) (incl : Bool) :
    (∀ r ∈ parse_abstract raw incl,
        pyStrip r.title ≠ [] ∧ pyStrip r.abstract_text ≠ []) ∧
    (∀ r ∈ parse_multiple_abstracts raw sep incl,
        pyStrip r.title ≠ [] ∧ pyStrip r.abstract_text ≠ []) := by
  constructor
  · intro r hr
    unfold parse_abstract at hr
    split at hr
    · cases hr
    · split at hr
      · exact parse_multiple_valid raw defaultSep incl r hr
      · cases hc : parse_single_core raw incl with
        | none => rw [hc] at hr; cases hr
        | some r0 =>
          rw [hc] at hr
          simp only [Option.toList_some, List.mem_singleton] at hr
          subst hr
          exact parse_single_core_valid raw incl _ hc
  · intro r hr
    exact parse_multiple_valid raw sep incl r hr

/-- Witness for C1 at the section 8.6 sample. -/
theorem C1_validity_invariant_witness :
    pyStrip sample86Record.title ≠ [] ∧
    pyStrip sample86Record.abstract_text ≠ [] :=
  (C1_validity_invariant sample86 defaultSep false).1 sample86Record (by decide)

/-- Claim C2: when every detected block parses, the batch output has exactly
one record per block, record i derived from block i (stated as an ordered
one-to-one correspondence); concretely, two well-formed blocks separated by a
blank-line run yield exactly two records whose titles and years match the
source blocks in order. -/
theorem C2_order_preservation :
    (∀ (raw sep : Str) (incl : Bool), pyStrip raw ≠ [] →
      (∀ b ∈ blocksOf raw sep, (processPiece incl b).isSome = true) →
      List.Forall₂ (fun b r => processPiece incl b = some r)
        (blocksOf raw sep) (parse_multiple_abstracts raw sep incl)) ∧
    (parse_abstract twoBlocks false).map (fun r => (r.title, r.year)) =
      [(sl ("The potential for artificial intelligence in healthcare."), some 2019),
       (sl ("A different title about machine learning in medicine."), some 2020)] := by
  constructor
  · intro raw sep incl hnb hall
    have hg : ¬(raw = [] ∨ pyStrip raw = []) := by
      rintro (h | h)
      · subst h; exact hnb rfl
      · exact hnb h
    unfold parse_multiple_abstracts
    rw [if_neg hg]
    exact filterMap_forall2 _ _ hall
  · decide

/-- Witness for C2 at the two-block input. -/
theorem C2_order_preservation_witness :
    List.Forall₂ (fun b r => processPiece false b = some r)
      (blocksOf twoBlocks defaultSep)
      (parse_multiple_abstracts twoBlocks defaultSep false) :=
  C2_order_preservation.1 twoBlocks defaultSep false (by decide) (by decide)

/-- Claim C3 counterexample: in a block whose citation head carries
`doi: 10.1111/aaa.` and whose explicit labeled line carries
`DOI: 10.2222/bbb`, the record's doi is the inline head value, not the
labeled-line value — the case-insensitive `DOI:` search finds the head's
`doi:` first. -/
theorem C3_counterexample :
    containsSub (sl ("DOI: 10.2222/bbb")) sampleTwoDois = true ∧
    (parse_abstract sampleTwoDois false).map (fun r => r.doi) =
      [some (sl ("10.1111/aaa"))] ∧
    sl ("10.1111/aaa") ≠ sl ("10.2222/bbb") :=
  ⟨by decide, by decide, by decide⟩

/-- Claim C3 (amended): the record's doi is the leftmost case-insensitive
`DOI:`-anchored capture anywhere in the block — the head's inline `doi:` is
itself such a match, so it wins over a later explicit `DOI:` line; the
head-line DOI is used only when that global search yields nothing
non-empty. -/
theorem C3_doi_precedence (block : Str) (incl : Bool) (r : AbstractRecord)
    (h : parse_single_abstract block incl = some r) :
    (∀ d, (extract_identifiers block).1 = some d → d ≠ [] → r.doi = some d) ∧
    ((extract_identifiers block).1 = none ∨ (extract_identifiers block).1 = some [] →
      r.doi = (extract_journal_info block).2.2) := by
  unfold parse_single_abstract at h
  split at h
  · cases h
  · obtain ⟨-, -, -, -, -, -, -, hdoi, -, -⟩ :=
      parse_single_core_fields block incl r h
    constructor
    · intro d hd hdne
      rw [hdoi, hd, if_neg (by simp [hdne])]
    · intro hcase
      rw [hdoi, if_pos hcase]

/-- Witness for the amended C3 at the two-DOI block. -/
theorem C3_doi_precedence_witness :
    twoDoisRecord.doi = some (sl ("10.1111/aaa")) :=
  (C3_doi_precedence sampleTwoDois false twoDoisRecord (by decide)).1
    (sl ("10.1111/aaa")) (by decide) (by decide)

/-- Claim C4 counterexample: a citation head `1. Some Journal. 1850 xyz.`
produces a record whose year is 1850, outside the claimed sanity range —
the strict head pattern performs no range check. -/
theorem C4_counterexample :
    (parse_abstract sample1850 false).map (fun r => r.year) = [some 1850] ∧
    ¬(1900 ≤ 1850) :=
  ⟨by decide, by decide⟩

/-- Claim C4 (amended): every year produced by the fallback year scan lies in
1900..2030; a record year outside that range can only come from the strict
citation-head match, which takes the 4-digit value verbatim with no range
check. -/
theorem C4_year_sanity (t block : Str) (incl : Bool) :
    (∀ y, extract_year t = some y → 1900 ≤ y ∧ y ≤ 2030) ∧
    (∀ r y, parse_single_abstract block incl = some r → r.year = some y →
      (1900 ≤ y ∧ y ≤ 2030) ∨
      (matchJournalStrict (firstLineOf block)).isSome = true) := by
  constructor
  · intro y hy
    exact extract_year_range t y hy
  · intro r y hr hy
    unfold parse_single_abstract at hr
    split at hr
    · cases hr
    · obtain ⟨-, -, -, hyear, -, -, -, -, -, -⟩ :=
        parse_single_core_fields block incl r hr
      rw [hyear] at hy
      exact journal_year_range block y hy

/-- Witness for the amended C4: an in-range scan year, and the out-of-range
1850 record year explained by the strict head match. -/
theorem C4_year_sanity_witness :
    (1900 ≤ 2019 ∧ 2019 ≤ 2030) ∧
    ((1900 ≤ 1850 ∧ 1850 ≤ 2030) ∨
      (matchJournalStrict (firstLineOf sample1850)).isSome = true) :=
  ⟨(C4_year_sanity (sl ("x 2019 y")) sample1850 false).1 2019 (by decide),
   (C4_year_sanity (sl ("x 2019 y")) sample1850 false).2
     ((parse_single_abstract sample1850 false).getD dummyRecord) 1850
     (by decide) (by decide)⟩

/-- Claim C5: the concrete scenario of spec section 8.6 yields exactly one
record with the expected title, authors, year, journal, doi, pmid and pmcid,
and an abstract body beginning with the expected prefix. -/
theorem C5_concrete_scenario :
    (parse_abstract sample86 false).length = 1 ∧
    (parse_abstract sample86 false).map (fun r => r.title) =
      [sl ("The potential for artificial intelligence in healthcare.")] ∧
    (parse_abstract sample86 false).map (fun r => r.authors) =
      [[sl ("Davenport T"), sl ("Kalakota R")]] ∧
    (parse_abstract sample86 false).map (fun r => r.year) = [some 2019] ∧
    (parse_abstract sample86 false).map (fun r => r.journal) =
      [some (sl ("Future Healthc J"))] ∧
    (parse_abstract sample86 false).map (fun r => r.doi) =
      [some (sl ("10.7861/futurehosp.6-2-94"))] ∧
    (parse_abstract sample86 false).map (fun r => r.pmid) =
      [some (sl ("31363513"))] ∧
    (parse_abstract sample86 false).map (fun r => r.pmcid) =
      [some (sl ("PMC6616181"))] ∧
    (parse_abstract sample86 false).map
      (fun r => (sl ("The complexity and rise of data in healthcare")).isPrefixOf
        r.abstract_text) = [true] :=
  ⟨by decide, by decide, by decide, by decide, by decide, by decide, by decide,
   by decide, by decide⟩

/-- Claim C6: with at most one numbered citation head, the engine
(`parse_multiple_abstracts`) splits on the caller-configurable separator and
parses each resulting piece; with two or more heads it instead splits at
every newline that begins a new numbered head.  Either split is a genuine
partition: joining the pieces with the separator (resp. a newline)
reconstructs the input, and in head mode the text from every block after the
first onwards starts a numbered head. -/
theorem C6_boundary_detection (raw sep : Str) (incl : Bool)
    (hsep : sep ≠ []) (hnb : pyStrip raw ≠ []) :
    (countCitations raw ≤ 1 →
      parse_multiple_abstracts raw sep incl =
        (pySplit sep raw).filterMap (processPiece incl) ∧
      joinSep sep (pySplit sep raw) = raw) ∧
    (1 < countCitations raw →
      parse_multiple_abstracts raw sep incl =
        (splitCitBlocks raw).filterMap (processPiece incl) ∧
      joinSep (sl ("\n")) (splitCitBlocks raw) = raw ∧
      (∀ k, k + 1 < (splitCitBlocks raw).length →
        lookaheadHead
          (joinSep (sl ("\n")) ((splitCitBlocks raw).drop (k + 1))) = true)) := by
  have hg : ¬(raw = [] ∨ pyStrip raw = []) := by
    rintro (h | h)
    · subst h; exact hnb rfl
    · exact hnb h
  constructor
  · intro hle
    refine ⟨?_, pySplit_join sep raw⟩
    unfold parse_multiple_abstracts blocksOf
    rw [if_neg hg, if_neg (by omega)]
  · intro hgt
    refine ⟨?_, splitCitBlocks_join raw,
      fun k hk => splitCitAux_tailHead raw [] k hk⟩
    unfold parse_multiple_abstracts blocksOf
    rw [if_neg hg, if_pos (by omega)]

/-- Witness for C6 at the two-block input (two heads: head-based split). -/
theorem C6_boundary_detection_witness :
    parse_multiple_abstracts twoBlocks defaultSep false =
      (splitCitBlocks twoBlocks).filterMap (processPiece false) ∧
    joinSep (sl ("\n")) (splitCitBlocks twoBlocks) = twoBlocks :=
  ⟨((C6_boundary_detection twoBlocks defaultSep false (by decide)
      (by decide)).2 (by decide)).1,
   ((C6_boundary_detection twoBlocks defaultSep false (by decide)
      (by decide)).2 (by decide)).2.1⟩

/-- Claim C7: blank or whitespace-only input yields an empty record sequence
from both entry points, for any flag and separator. -/
theorem C7_empty_input (raw sep : Str) (incl : Bool) (h : pyStrip raw = []) :
    parse_abstract raw incl = [] ∧ parse_multiple_abstracts raw sep incl = [] := by
  constructor
  · unfold parse_abstract
    rw [if_pos (Or.inr h)]
  · unfold parse_multiple_abstracts
    rw [if_pos (Or.inr h)]

/-- Witness for C7 at a whitespace-only input. -/
theorem C7_empty_input_witness :
    parse_abstract (sl ("  \n\t ")) true = [] ∧
    parse_multiple_abstracts (sl ("  \n\t ")) defaultSep true = [] :=
  C7_empty_input (sl ("  \n\t ")) defaultSep true (by decide)

/-- Claim C8: the batch parse is a total function equal to a per-block
`filterMap` (so no error escapes and accept/reject is decided only per
block), and a block whose parse is rejected contributes no record while
leaving the records of every sibling block unchanged. -/
theorem C8_failure_isolation (raw sep : Str) (incl : Bool) :
    (pyStrip raw ≠ [] →
      parse_multiple_abstracts raw sep incl =
        (blocksOf raw sep).filterMap (processPiece incl)) ∧
    (∀ (l1 l2 : List Str) (b : Str), processPiece incl b = none →
      (l1 ++ b :: l2).filterMap (processPiece incl) =
        (l1 ++ l2).filterMap (processPiece incl)) := by
  constructor
  · intro hnb
    have hg : ¬(raw = [] ∨ pyStrip raw = []) := by
      rintro (h | h)
      · subst h; exact hnb rfl
      · exact hnb h
    unfold parse_multiple_abstracts
    rw [if_neg hg]
  · intro l1 l2 b hb
    exact filterMap_drop_none _ l1 l2 b hb

/-- Witness for C8: dropping an unparsable block between siblings leaves the
sibling records unchanged. -/
theorem C8_failure_isolation_witness :
    ([sample86] ++ sl ("xx") :: []).filterMap (processPiece false) =
      ([sample86] ++ []).filterMap (processPiece false) :=
  (C8_failure_isolation (sl ("a")) defaultSep false).2 [sample86] []
    (sl ("xx")) (by decide)

/-- Claim C9: the field-named interchange representation of a record
(`to_dict`, the value mapping carried by `to_json`) is lossless — the inverse
reconstruction used by the store's import (`AbstractRecord(**d)`) gives back
the identical record. -/
theorem C9_interchange_roundtrip (r : AbstractRecord) :
    record_from_dict (to_dict r) = some r := by
  obtain ⟨t, au, y, ab, j, d, pm, pc, rt⟩ := r
  simp [to_dict, record_from_dict, jLookup, jAsStr, jAsStrList, strListM_jstr,
        jAsOptStr_optStrJ, jAsOptNat_optNatJ, List.find?]

/-- Claim C10 counterexample: with input `PMCID: pmc123` the extractor
returns the lowercase capture `pmc123`, which does not start with the literal
`PMC` — the pattern's `re.IGNORECASE` also case-folds the `PMC` literal. -/
theorem C10_counterexample :
    (extract_identifiers (sl ("PMCID: pmc123"))).2.2 = some (sl ("pmc123")) ∧
    ¬((sl ("PMC")).isPrefixOf (sl ("pmc123")) = true) :=
  ⟨by decide, by decide⟩

/-- Claim C10 (amended): a non-absent pmid is a non-empty decimal digit
string; a non-absent pmcid is three characters case-folding to `pmc` (in any
letter case, not necessarily the literal `PMC`) followed by one or more
decimal digits; the same holds for the fields of every record. -/
theorem C10_identifier_shapes (text block : Str) (incl : Bool) :
    (∀ p, (extract_identifiers text).2.1 = some p →
      p ≠ [] ∧ p.all isDigitC = true) ∧
    (∀ q, (extract_identifiers text).2.2 = some q →
      (q.take 3).map Char.toLower = sl ("pmc") ∧
      q.drop 3 ≠ [] ∧ (q.drop 3).all isDigitC = true) ∧
    (∀ r, parse_single_abstract block incl = some r →
      (∀ p, r.pmid = some p → p ≠ [] ∧ p.all isDigitC = true) ∧
      (∀ q, r.pmcid = some q →
        (q.take 3).map Char.toLower = sl ("pmc") ∧
        q.drop 3 ≠ [] ∧ (q.drop 3).all isDigitC = true)) := by
  refine ⟨fun p hp => extract_pmid_shape text p hp,
          fun q hq => extract_pmcid_shape text q hq, ?_⟩
  intro r hr
  unfold parse_single_abstract at hr
  split at hr
  · cases hr
  · obtain ⟨-, -, -, -, -, -, -, -, hpmid, hpmcid⟩ :=
      parse_single_core_fields block incl r hr
    constructor
    · intro p hp
      rw [hpmid] at hp
      exact extract_pmid_shape block p hp
    · intro q hq
      rw [hpmcid] at hq
      exact extract_pmcid_shape block q hq

/-- Witness for the amended C10 at the section 8.6 sample. -/
theorem C10_identifier_shapes_witness :
    sl ("31363513") ≠ [] ∧ (sl ("31363513")).all isDigitC = true :=
  (C10_identifier_shapes sample86 sample86 false).1 (sl ("31363513")) (by decide)
